import Mathlib

/-!
Verification of the TimeSpan time-tracking tool.

Shallow embedding of the Rust sources:
  src/models/mod.rs      (Project, TimeEntry, Timer, TimeReport)
  src/repository/mod.rs  (SqliteRepository over the three tables)
  src/services/mod.rs    (ProjectService, TimeTrackingService)
  src/services/git_service.rs (GitService commit analysis)

Modelling conventions:
  chrono DateTime<Utc> is modelled as Int (a timestamp on a linear clock);
  chrono Duration as Int seconds; Uuid as Nat; f32 as exact rationals.
  Calls to Utc::now() and Uuid::new_v4() become explicit parameters.
  The chrono RFC-3339 and uuid string codecs are external libraries whose
  round trip is exact at this granularity, so row cells that the Rust code
  stores as strings keep their typed values; the repository-level encoding
  decisions that the Rust code itself makes (the NULL-versus-JSON branch
  for tags, the replace-singleton write) are modelled explicitly.
  Fallible Rust functions returning Result<T> become functions returning
  Except TimeSpanError T; stateful repository calls thread a DbState and
  return (Except TimeSpanError T) x DbState, the second component being
  the database contents after the call.
-/

namespace TimeSpan

/-- Error taxonomy from src/lib.rs. The Database and Io variants wrap
engine-level failures that cannot occur in the embedded store model. -/
inductive TimeSpanError where
  | TimerAlreadyRunning (name : String)
  | NoActiveTimer
  | ProjectNotFound (name : String)
  | ProjectAlreadyExists (name : String)
  | ProjectHasTimeEntries (name : String)
  | InvalidDuration (reason : String)
  deriving DecidableEq, Repr

/-- src/models/mod.rs Project. -/
structure Project where
  id : Nat
  name : String
  description : Option String
  directory_path : Option String
  is_client_project : Bool
  created_at : Int
  updated_at : Int
  deriving DecidableEq, Repr

/-- src/models/mod.rs TimeEntry. -/
structure TimeEntry where
  id : Nat
  project_id : Nat
  project_name : String
  task_description : Option String
  start_time : Int
  end_time : Option Int
  duration : Option Int
  tags : List String
  created_at : Int
  updated_at : Int
  deriving DecidableEq, Repr

/-- src/models/mod.rs Timer. -/
structure Timer where
  id : Nat
  project_id : Nat
  project_name : String
  task_description : Option String
  start_time : Int
  tags : List String
  deriving DecidableEq, Repr

/-- src/models/mod.rs ProjectSummary. -/
structure ProjectSummary where
  project_name : String
  total_duration : Int
  entry_count : Nat
  deriving DecidableEq, Repr

/-- src/models/mod.rs DateRange. -/
structure DateRange where
  start : Int
  «end» : Int
  deriving DecidableEq, Repr

/-- src/models/mod.rs TimeReport. -/
structure TimeReport where
  total_duration : Int
  entries : List TimeEntry
  project_summaries : List ProjectSummary
  date_range : DateRange
  deriving DecidableEq, Repr

/-- Project::new. The uuid and the clock reading are passed in. -/
def Project.new (name : String) (description : Option String)
    (id : Nat) (now : Int) : Project :=
  { id := id
    name := name
    description := description
    directory_path := none
    is_client_project := false
    created_at := now
    updated_at := now }

/-- TimeEntry::new. The uuid and the clock reading are passed in. -/
def TimeEntry.new (project_id : Nat) (project_name : String)
    (task_description : Option String) (start_time : Int)
    (id : Nat) (now : Int) : TimeEntry :=
  { id := id
    project_id := project_id
    project_name := project_name
    task_description := task_description
    start_time := start_time
    end_time := none
    duration := none
    tags := []
    created_at := now
    updated_at := now }

/-- TimeEntry::stop: rejects an end time not strictly after the start,
otherwise sets end_time, duration = end_time - start_time, updated_at. -/
def TimeEntry.stop (e : TimeEntry) (end_time : Int) (now : Int) :
    Except TimeSpanError TimeEntry :=
  if end_time ≤ e.start_time then
    .error (.InvalidDuration "End time must be after start time")
  else
    .ok { e with
      end_time := some end_time
      duration := some (end_time - e.start_time)
      updated_at := now }

/-- TimeEntry::add_tag: pushes the tag (and bumps updated_at) only when
it is not already present. -/
def TimeEntry.add_tag (e : TimeEntry) (tag : String) (now : Int) : TimeEntry :=
  if tag ∈ e.tags then e
  else { e with tags := e.tags ++ [tag], updated_at := now }

/-- TimeEntry::remove_tag: retains the other tags and bumps updated_at
unconditionally. -/
def TimeEntry.remove_tag (e : TimeEntry) (tag : String) (now : Int) : TimeEntry :=
  { e with tags := e.tags.filter (fun t => ¬ t = tag), updated_at := now }

/-- TimeEntry::is_running. -/
def TimeEntry.is_running (e : TimeEntry) : Bool :=
  e.end_time.isNone

/-- Timer::new. The uuid is passed in. -/
def Timer.new (project_id : Nat) (project_name : String)
    (task_description : Option String) (start_time : Int)
    (id : Nat) : Timer :=
  { id := id
    project_id := project_id
    project_name := project_name
    task_description := task_description
    start_time := start_time
    tags := [] }

/-- Timer::add_tag: pushes the tag only when it is not already present. -/
def Timer.add_tag (t : Timer) (tag : String) : Timer :=
  if tag ∈ t.tags then t
  else { t with tags := t.tags ++ [tag] }

/-- The body of the or_insert_with closure plus the per-entry mutation in
TimeReport::new: add the entry duration (when present) and bump the count. -/
def ProjectSummary.applyEntry (s : ProjectSummary) (entry : TimeEntry) :
    ProjectSummary :=
  let s1 := match entry.duration with
    | some d => { s with total_duration := s.total_duration + d }
    | none => s
  { s1 with entry_count := s1.entry_count + 1 }

/-- One step of the per-project summary fold in TimeReport::new: the map
entry keyed by the denormalized project name is created at zero when
absent, then mutated. The map is modelled as an association list; the
source iterates a HashMap whose output order is unspecified. -/
def updateSummaries (acc : List ProjectSummary) (entry : TimeEntry) :
    List ProjectSummary :=
  if acc.any (fun s => s.project_name = entry.project_name) then
    acc.map (fun s =>
      if s.project_name = entry.project_name then s.applyEntry entry else s)
  else
    acc ++ [ProjectSummary.applyEntry
      { project_name := entry.project_name
        total_duration := 0
        entry_count := 0 } entry]

/-- TimeReport::new: total duration is the fold of the present durations;
summaries are the fold of updateSummaries over the entries in order. -/
def TimeReport.new (entries : List TimeEntry) (start «end» : Int) :
    TimeReport :=
  { total_duration := (entries.filterMap TimeEntry.duration).foldl (· + ·) 0
    entries := entries
    project_summaries := entries.foldl updateSummaries []
    date_range := { start := start, «end» := «end» } }

/-- A row of the singleton active_timer table. Cells the Rust code stores
as strings keep their typed values (see the header comment); the tags cell
is NULL (none) or a JSON array (some list), exactly the branch taken by
SqliteRepository::save_active_timer. -/
structure TimerRow where
  id : Nat
  project_id : Nat
  project_name : String
  task_description : Option String
  start_time : Int
  tags : Option (List String)
  deriving DecidableEq, Repr

/-- The encoding performed inside SqliteRepository::save_active_timer:
empty tag lists are stored as NULL, non-empty ones as a JSON array. -/
def timerToRow (t : Timer) : TimerRow :=
  { id := t.id
    project_id := t.project_id
    project_name := t.project_name
    task_description := t.task_description
    start_time := t.start_time
    tags := if t.tags.isEmpty then none else some t.tags }

/-- SqliteRepository::timer_from_row: a NULL tags cell decodes to the
empty list. -/
def timer_from_row (r : TimerRow) : Timer :=
  { id := r.id
    project_id := r.project_id
    project_name := r.project_name
    task_description := r.task_description
    start_time := r.start_time
    tags := r.tags.getD [] }

/-- The contents of the embedded database: the projects table and the
time_entries table in insertion (rowid) order, and the singleton
active_timer table. -/
structure DbState where
  projects : List Project
  time_entries : List TimeEntry
  active_timer : Option TimerRow
  deriving DecidableEq, Repr

namespace SqliteRepository

/-- SqliteRepository::create_project: INSERT; a uniqueness violation of
the name column (or of the id primary key) is reported as
ProjectAlreadyExists carrying the project name. -/
def create_project (s : DbState) (project : Project) :
    (Except TimeSpanError Unit) × DbState :=
  if s.projects.any (fun q => q.name = project.name ∨ q.id = project.id) then
    (.error (.ProjectAlreadyExists project.name), s)
  else
    (.ok (), { s with projects := s.projects ++ [project] })

/-- SqliteRepository::get_project_by_name: first row with that name. -/
def get_project_by_name (s : DbState) (name : String) : Option Project :=
  s.projects.find? (fun p => p.name = name)

/-- SqliteRepository::get_project_by_id. -/
def get_project_by_id (s : DbState) (id : Nat) : Option Project :=
  s.projects.find? (fun p => p.id = id)

/-- SqliteRepository::delete_project: resolves the name for the error
message, counts referencing time entries, deletes only when none. -/
def delete_project (s : DbState) (id : Nat) :
    (Except TimeSpanError Unit) × DbState :=
  let project := get_project_by_id s id
  let project_name := (project.map Project.name).getD (toString id)
  let count := (s.time_entries.filter (fun e => e.project_id = id)).length
  if count > 0 then
    (.error (.ProjectHasTimeEntries project_name), s)
  else
    (.ok (), { s with projects := s.projects.filter (fun p => ¬ p.id = id) })

/-- SqliteRepository::create_time_entry: INSERT appends the row. -/
def create_time_entry (s : DbState) (entry : TimeEntry) : DbState :=
  { s with time_entries := s.time_entries ++ [entry] }

/-- SqliteRepository::count_time_entries_for_project. -/
def count_time_entries_for_project (s : DbState) (project_id : Nat) : Nat :=
  (s.time_entries.filter (fun e => e.project_id = project_id)).length

/-- The ORDER BY start_time ASC comparison. -/
def entryLE (a b : TimeEntry) : Prop :=
  a.start_time ≤ b.start_time

instance : DecidableRel entryLE := fun a b =>
  inferInstanceAs (Decidable (a.start_time ≤ b.start_time))

instance : IsTotal TimeEntry entryLE :=
  ⟨fun a b => Int.le_total a.start_time b.start_time⟩

instance : IsTrans TimeEntry entryLE :=
  ⟨fun _ _ _ h h2 => le_trans h h2⟩

/-- SqliteRepository::list_time_entries_by_date_range: rows whose
start_time is within the inclusive window, ordered ascending by start
time (the relative order of equal keys is unspecified by the engine;
insertion sort is one witness of the ORDER BY contract). -/
def list_time_entries_by_date_range (s : DbState) (start «end» : Int) :
    List TimeEntry :=
  (s.time_entries.filter
      (fun e => start ≤ e.start_time ∧ e.start_time ≤ «end»)).insertionSort
    entryLE

/-- SqliteRepository::save_active_timer: DELETE FROM active_timer then
INSERT the encoded row (replace-singleton semantics); always succeeds. -/
def save_active_timer (s : DbState) (timer : Timer) : DbState :=
  { s with active_timer := some (timerToRow timer) }

/-- SqliteRepository::get_active_timer: decode the singleton row. -/
def get_active_timer (s : DbState) : Option Timer :=
  s.active_timer.map timer_from_row

/-- SqliteRepository::clear_active_timer. -/
def clear_active_timer (s : DbState) : DbState :=
  { s with active_timer := none }

end SqliteRepository

namespace ProjectService

open SqliteRepository

/-- ProjectService::create_project: pre-check read for a duplicate name,
then build a fresh Project and insert it. The uuid and clock reading of
Project::new are passed in. -/
def create_project (s : DbState) (name : String) (description : Option String)
    (newId : Nat) (now : Int) : (Except TimeSpanError Project) × DbState :=
  if (get_project_by_name s name).isSome then
    (.error (.ProjectAlreadyExists name), s)
  else
    let project := Project.new name description newId now
    match SqliteRepository.create_project s project with
    | (.ok (), s1) => (.ok project, s1)
    | (.error e, s1) => (.error e, s1)

/-- ProjectService::delete_project: resolve name to id, then delegate to
the guarded repository delete. -/
def delete_project (s : DbState) (name : String) :
    (Except TimeSpanError Unit) × DbState :=
  match get_project_by_name s name with
  | none => (.error (.ProjectNotFound name), s)
  | some project => SqliteRepository.delete_project s project.id

end ProjectService

namespace TimeTrackingService

open SqliteRepository

/-- TimeTrackingService::start_timer: reject when the singleton slot is
occupied, resolve the project by name, build a Timer stamped with the
current time and persist it as the singleton. -/
def start_timer (s : DbState) (project_name : String)
    (task_description : Option String) (newId : Nat) (now : Int) :
    (Except TimeSpanError Timer) × DbState :=
  match get_active_timer s with
  | some active => (.error (.TimerAlreadyRunning active.project_name), s)
  | none =>
    match get_project_by_name s project_name with
    | none => (.error (.ProjectNotFound project_name), s)
    | some project =>
      let timer := Timer.new project.id project.name task_description now newId
      (.ok timer, save_active_timer s timer)

/-- TimeTrackingService::stop_timer: read the singleton, build a TimeEntry
carrying over project id/name, task description and tags, stop it at the
current time, persist it, then clear the singleton. The uuid of the new
entry and the clock reading are passed in. -/
def stop_timer (s : DbState) (newId : Nat) (now : Int) :
    (Except TimeSpanError TimeEntry) × DbState :=
  match get_active_timer s with
  | none => (.error .NoActiveTimer, s)
  | some timer =>
    let end_time := now
    let entry0 := TimeEntry.new timer.project_id timer.project_name
      timer.task_description timer.start_time newId now
    let entry1 := timer.tags.foldl (fun e tag => e.add_tag tag now) entry0
    match entry1.stop end_time now with
    | .error e => (.error e, s)
    | .ok entry =>
      let s1 := create_time_entry s entry
      let s2 := clear_active_timer s1
      (.ok entry, s2)

/-- TimeTrackingService::add_tag_to_active_timer: read the singleton,
dedup-add the tag, re-persist the singleton. -/
def add_tag_to_active_timer (s : DbState) (tag : String) :
    (Except TimeSpanError Unit) × DbState :=
  match get_active_timer s with
  | none => (.error .NoActiveTimer, s)
  | some timer => (.ok (), save_active_timer s (timer.add_tag tag))

end TimeTrackingService

/-- src/models/mod.rs CommitType. -/
inductive CommitType where
  | Feature
  | BugFix
  | Refactor
  | Documentation
  | Test
  | Chore
  | Other
  deriving DecidableEq, Repr

/-- src/models/mod.rs GitCommit; the repository path is kept as a plain
string. -/
structure GitCommit where
  hash : String
  message : String
  author : String
  author_email : String
  timestamp : Int
  files_changed : List String
  insertions : Nat
  deletions : Nat
  repository_path : String
  deriving DecidableEq, Repr

/-- GitCommit::total_changes. -/
def GitCommit.total_changes (c : GitCommit) : Nat :=
  c.insertions + c.deletions

/-- Rust str::contains for a plain pattern: splitting on an occurring
pattern yields more than one piece. -/
def strContains (s pat : String) : Bool :=
  (s.splitOn pat).length != 1

/-- GitCommit::detect_commit_type: message-prefix and substring
heuristics over the lowercased message, checked in source order. -/
def GitCommit.detect_commit_type (c : GitCommit) : CommitType :=
  let msg := c.message.toLower
  if msg.startsWith "feat" || strContains msg "feature" || strContains msg "add" then
    .Feature
  else if msg.startsWith "fix" || strContains msg "bug" || strContains msg "error" then
    .BugFix
  else if msg.startsWith "refactor" || strContains msg "refactor" then
    .Refactor
  else if msg.startsWith "docs" || strContains msg "documentation" then
    .Documentation
  else if msg.startsWith "test" || strContains msg "test" then
    .Test
  else if msg.startsWith "chore" || strContains msg "chore" then
    .Chore
  else
    .Other

/-- std Path::extension: the piece after the last dot of the final path
component, absent when there is no dot or when the only dot leads a
hidden-file name. -/
def fileExtension (file : String) : Option String :=
  let name := (file.splitOn "/").getLastD ""
  let parts := name.splitOn "."
  if parts.length ≤ 1 then none
  else if parts.head? = some "" ∧ parts.length = 2 then none
  else parts.getLast?

/-- Truncation toward zero of a rational, the behaviour of the Rust
`as i64` cast applied to an f32 value. -/
def ratTrunc (q : ℚ) : Int :=
  q.num.tdiv (q.den : Int)

/-- src/models/mod.rs CommitAnalysis. -/
structure CommitAnalysis where
  commit : GitCommit
  complexity_score : ℚ
  file_type_weights : List (String × ℚ)
  commit_type : CommitType
  estimated_duration : Int
  deriving DecidableEq, Repr

namespace GitService

/-- GitService::calculate_complexity_score: capped lines score plus
capped files score, averaged. -/
def calculate_complexity_score (c : GitCommit) : ℚ :=
  let total_changes : ℚ := (c.total_changes : ℚ)
  let file_count : ℚ := (c.files_changed.length : ℚ)
  let lines_score := min (total_changes / 100) 3
  let files_score := min (file_count / 10) 2
  (lines_score + files_score) / 2

/-- The per-extension weight table in GitService::get_file_type_weights. -/
def fileTypeWeight (file : String) : ℚ :=
  match fileExtension file with
  | some "rs" => 3/2
  | some "py" => 13/10
  | some "js" | some "ts" => 6/5
  | some "java" | some "cpp" | some "c" => 7/5
  | some "md" | some "txt" => 1/2
  | some "json" | some "toml" | some "yaml" | some "yml" => 3/10
  | some "html" | some "css" => 7/10
  | _ => 1

/-- One map update of GitService::get_file_type_weights: the entry keyed
by the extension (or "unknown") is created at zero when absent, then the
weight is added. -/
def addWeight (w : List (String × ℚ)) (key : String) (x : ℚ) :
    List (String × ℚ) :=
  if w.any (fun p => p.1 = key) then
    w.map (fun p => if p.1 = key then (p.1, p.2 + x) else p)
  else
    w ++ [(key, x)]

/-- GitService::get_file_type_weights, as an association-list fold. -/
def get_file_type_weights (files : List String) : List (String × ℚ) :=
  files.foldl
    (fun w file =>
      addWeight w ((fileExtension file).getD "unknown") (fileTypeWeight file))
    []

/-- The per-file minute bonus table in GitService::estimate_commit_time. -/
def fileBonus (file : String) : Int :=
  match fileExtension file with
  | some "rs" => 5
  | some "js" | some "ts" => 3
  | some "md" => 1
  | _ => 0

/-- chrono Duration::minutes, in seconds. -/
def durMinutes (m : Int) : Int := m * 60

/-- chrono Duration::num_minutes: whole minutes, truncated toward zero. -/
def durNumMinutes (d : Int) : Int := d.tdiv 60

/-- GitService::estimate_commit_time: type-based base time, complexity
multiplier, change-volume factor, file-type bonuses, capped at 4 hours. -/
def estimate_commit_time (c : GitCommit) (commit_type : CommitType)
    (complexity_score : ℚ) : Int :=
  let base_time := match commit_type with
    | .Feature => durMinutes 45
    | .BugFix => durMinutes 60
    | .Refactor => durMinutes 30
    | .Documentation => durMinutes 15
    | .Test => durMinutes 25
    | .Chore => durMinutes 10
    | .Other => durMinutes 20
  let complexity_multiplier : ℚ := 1 + complexity_score * (1/2)
  let adjusted_minutes :=
    ratTrunc ((durNumMinutes base_time : ℚ) * complexity_multiplier)
  let base_time1 := durMinutes adjusted_minutes
  let changes_factor : ℚ := min ((c.total_changes : ℚ) / 50) 3
  let base_time2 := base_time1 + durMinutes (ratTrunc (changes_factor * 10))
  let file_weight_bonus : Int := (c.files_changed.map fileBonus).sum
  let base_time3 := base_time2 + durMinutes file_weight_bonus
  min base_time3 (durMinutes (4 * 60))

/-- GitService::analyze_commit (always returns Ok in the source). -/
def analyze_commit (c : GitCommit) : CommitAnalysis :=
  let commit_type := c.detect_commit_type
  let complexity_score := calculate_complexity_score c
  let file_type_weights := get_file_type_weights c.files_changed
  let estimated_duration := estimate_commit_time c commit_type complexity_score
  { commit := c
    complexity_score := complexity_score
    file_type_weights := file_type_weights
    commit_type := commit_type
    estimated_duration := estimated_duration }

end GitService

/-- The time entries reachable through the public model operations:
creation, tag edits, and (possibly repeated) successful stops. -/
inductive ReachableEntry : TimeEntry → Prop where
  | new (project_id : Nat) (project_name : String)
      (task_description : Option String) (start_time : Int) (id : Nat)
      (now : Int) :
      ReachableEntry (TimeEntry.new project_id project_name task_description
        start_time id now)
  | add_tag (e : TimeEntry) (tag : String) (now : Int) :
      ReachableEntry e → ReachableEntry (e.add_tag tag now)
  | remove_tag (e : TimeEntry) (tag : String) (now : Int) :
      ReachableEntry e → ReachableEntry (e.remove_tag tag now)
  | stop (e : TimeEntry) (t now : Int) (e' : TimeEntry) :
      ReachableEntry e → e.stop t now = .ok e' → ReachableEntry e'

/-- The duration invariant of a time entry: duration is present exactly
when end_time is, and then equals end_time minus start_time. -/
def entryDurationInv (e : TimeEntry) : Prop :=
  (e.duration.isSome ↔ e.end_time.isSome)
  ∧ ∀ t, e.end_time = some t → e.duration = some (t - e.start_time)

/-! ### Shared helper lemmas -/

/-- Decoding the row written by save_active_timer recovers the timer:
the NULL-versus-JSON branch for tags is inverted by timer_from_row. -/
theorem timer_from_row_timerToRow (t : Timer) :
    timer_from_row (timerToRow t) = t := by
  cases t with
  | mk id pid pname task start tags =>
    simp only [timerToRow, timer_from_row]
    cases tags <;> simp

/-- A project found by name carries that name. -/
theorem get_project_by_name_name {s : DbState} {n : String} {q : Project}
    (h : SqliteRepository.get_project_by_name s n = some q) : q.name = n := by
  have := List.find?_some h
  simpa using this

/-- A tag is present after it is dedup-added. -/
theorem Timer.mem_add_tag_self (t : Timer) (tag : String) :
    tag ∈ (t.add_tag tag).tags := by
  unfold Timer.add_tag
  split
  · assumption
  · simp

/-- Dedup-adding a tag that is already present is a no-op. -/
theorem Timer.add_tag_idem (t : Timer) (tag : String) :
    (t.add_tag tag).add_tag tag = t.add_tag tag := by
  have hmem := t.mem_add_tag_self tag
  unfold Timer.add_tag
  split <;> simp_all [Timer.add_tag]

/-- Stopping an entry never touches its tags. -/
theorem TimeEntry.stop_tags {e e' : TimeEntry} {t now : Int}
    (h : e.stop t now = .ok e') : e'.tags = e.tags := by
  unfold TimeEntry.stop at h
  split at h
  · exact absurd h (by simp)
  · cases h
    rfl

/-- Folding the dedup-add of TimeEntry::add_tag over a tag list: the tag
count of the result is the original count when the tag was already
present, else one or zero according to membership in the list. -/
theorem count_foldl_add_tag (l : List String) (e : TimeEntry) (now : Int)
    (tag : String) :
    ((l.foldl (fun a tg => a.add_tag tg now) e).tags.count tag)
      = if tag ∈ e.tags then e.tags.count tag
        else if tag ∈ l then 1 else 0 := by
  induction l generalizing e with
  | nil =>
    by_cases h : tag ∈ e.tags
    · simp [h]
    · simp [h, List.count_eq_zero.2 h]
  | cons hd tl ih =>
    simp only [List.foldl_cons]
    by_cases hhd : hd ∈ e.tags
    · rw [show e.add_tag hd now = e by unfold TimeEntry.add_tag; simp [hhd]]
      rw [ih]
      by_cases htag : tag ∈ e.tags
      · simp [htag]
      · have : ¬ tag = hd := fun h => htag (h ▸ hhd)
        simp [htag, this]
    · rw [show e.add_tag hd now
          = { e with tags := e.tags ++ [hd], updated_at := now } by
        unfold TimeEntry.add_tag; simp [hhd]]
      rw [ih]
      by_cases heq : tag = hd
      · subst heq
        simp [hhd, List.count_eq_zero.2 hhd]
      · by_cases htag : tag ∈ e.tags <;>
          simp [htag, heq, List.count_append, Ne.symm heq]

/-- applyEntry never changes the key. -/
theorem applyEntry_project_name (s : ProjectSummary) (e : TimeEntry) :
    (s.applyEntry e).project_name = s.project_name := by
  unfold ProjectSummary.applyEntry
  cases e.duration <;> rfl

/-- applyEntry adds the present duration (zero when absent). -/
theorem applyEntry_total (s : ProjectSummary) (e : TimeEntry) :
    (s.applyEntry e).total_duration = s.total_duration + e.duration.getD 0 := by
  unfold ProjectSummary.applyEntry
  cases e.duration <;> simp

/-- applyEntry increments the count. -/
theorem applyEntry_count (s : ProjectSummary) (e : TimeEntry) :
    (s.applyEntry e).entry_count = s.entry_count + 1 := by
  unfold ProjectSummary.applyEntry
  cases e.duration <;> simp

/-- Membership in one summary-fold step: an element is the updated image
of a matching element, an untouched non-matching element, or the freshly
appended summary when no element matched. -/
theorem mem_updateSummaries {t : ProjectSummary} {acc : List ProjectSummary}
    {e : TimeEntry} :
    t ∈ updateSummaries acc e ↔
      (∃ u ∈ acc, u.project_name = e.project_name ∧ t = u.applyEntry e)
      ∨ (∃ u ∈ acc, ¬ u.project_name = e.project_name ∧ t = u)
      ∨ ((∀ u ∈ acc, ¬ u.project_name = e.project_name)
          ∧ t = ProjectSummary.applyEntry
              { project_name := e.project_name, total_duration := 0,
                entry_count := 0 } e) := by
  unfold updateSummaries
  split
  next hany =>
    simp only [List.any_eq_true, decide_eq_true_eq] at hany
    constructor
    · intro ht
      rw [List.mem_map] at ht
      obtain ⟨u, hu, hut⟩ := ht
      by_cases hn : u.project_name = e.project_name
      · exact Or.inl ⟨u, hu, hn, by rw [← hut, if_pos hn]⟩
      · exact Or.inr (Or.inl ⟨u, hu, hn, by rw [← hut, if_neg hn]⟩)
    · rintro (⟨u, hu, hn, ht⟩ | ⟨u, hu, hn, ht⟩ | ⟨hall, _⟩)
      · rw [List.mem_map]
        exact ⟨u, hu, by rw [if_pos hn, ht]⟩
      · rw [List.mem_map]
        exact ⟨u, hu, by rw [if_neg hn, ht]⟩
      · obtain ⟨u, hu, hpu⟩ := hany
        exact absurd hpu (hall u hu)
  next hany =>
    have hall : ∀ u ∈ acc, ¬ u.project_name = e.project_name := by
      intro u hu hn
      exact hany (List.any_eq_true.2 ⟨u, hu, decide_eq_true hn⟩)
    rw [List.mem_append, List.mem_singleton]
    constructor
    · rintro (hmem | ht)
      · exact Or.inr (Or.inl ⟨t, hmem, hall t hmem, rfl⟩)
      · exact Or.inr (Or.inr ⟨hall, ht⟩)
    · rintro (⟨u, hu, hn, _⟩ | ⟨u, hu, _, ht⟩ | ⟨_, ht⟩)
      · exact absurd hn (hall u hu)
      · exact Or.inl (ht ▸ hu)
      · exact Or.inr ht

/-- Every key of the accumulator survives a summary-fold step. -/
theorem exists_name_in_updateSummaries {u : ProjectSummary}
    {acc : List ProjectSummary} {e : TimeEntry} (hu : u ∈ acc) :
    ∃ v ∈ updateSummaries acc e, v.project_name = u.project_name := by
  by_cases hn : u.project_name = e.project_name
  · exact ⟨u.applyEntry e, mem_updateSummaries.2 (Or.inl ⟨u, hu, hn, rfl⟩),
      applyEntry_project_name u e⟩
  · exact ⟨u, mem_updateSummaries.2 (Or.inr (Or.inl ⟨u, hu, hn, rfl⟩)), rfl⟩

/-- After a summary-fold step, some element carries the entry key. -/
theorem entry_name_in_updateSummaries (acc : List ProjectSummary)
    (e : TimeEntry) :
    ∃ v ∈ updateSummaries acc e, v.project_name = e.project_name := by
  by_cases hc : ∃ u ∈ acc, u.project_name = e.project_name
  · obtain ⟨u, hu, hn⟩ := hc
    exact ⟨u.applyEntry e, mem_updateSummaries.2 (Or.inl ⟨u, hu, hn, rfl⟩),
      (applyEntry_project_name u e).trans hn⟩
  · push_neg at hc
    exact ⟨_, mem_updateSummaries.2 (Or.inr (Or.inr ⟨hc, rfl⟩)),
      applyEntry_project_name _ e⟩

/-- Trace-back of a fold of updateSummaries: each output summary either
extends a unique-keyed accumulator element by the matching entries of
the folded list, or is built from zero out of exactly those entries. -/
theorem foldl_updateSummaries_spec (l : List TimeEntry)
    (acc : List ProjectSummary) :
    ∀ t ∈ l.foldl updateSummaries acc,
      (∃ u ∈ acc, u.project_name = t.project_name
        ∧ t.total_duration = u.total_duration +
            ((l.filter (fun e => e.project_name = t.project_name)).map
              (fun e => e.duration.getD 0)).sum
        ∧ t.entry_count = u.entry_count +
            (l.filter (fun e => e.project_name = t.project_name)).length)
      ∨ ((∀ u ∈ acc, ¬ u.project_name = t.project_name)
        ∧ t.total_duration =
            ((l.filter (fun e => e.project_name = t.project_name)).map
              (fun e => e.duration.getD 0)).sum
        ∧ t.entry_count =
            (l.filter (fun e => e.project_name = t.project_name)).length) := by
  induction l generalizing acc with
  | nil =>
    intro t ht
    exact Or.inl ⟨t, ht, rfl, by simp, by simp⟩
  | cons e tl ih =>
    intro t ht
    simp only [List.foldl_cons] at ht
    rcases ih (updateSummaries acc e) t ht with
      ⟨u', hu', hname, htot, hcnt⟩ | ⟨hall, htot, hcnt⟩
    · rcases mem_updateSummaries.1 hu' with
        ⟨u, hu, hun, hu'eq⟩ | ⟨u, hu, hun, hu'eq⟩ | ⟨hnone, hu'eq⟩
      · -- u' is the updated image of u, whose key matches e
        have hn2 : u'.project_name = u.project_name := by
          rw [hu'eq, applyEntry_project_name]
        have hte : e.project_name = t.project_name := by
          rw [← hun, ← hn2, hname]
        have hfil : (e :: tl).filter (fun x => x.project_name = t.project_name)
            = e :: tl.filter (fun x => x.project_name = t.project_name) := by
          rw [List.filter_cons_of_pos]
          simpa using hte
        have hutot : u'.total_duration = u.total_duration + e.duration.getD 0 := by
          rw [hu'eq, applyEntry_total]
        have hucnt : u'.entry_count = u.entry_count + 1 := by
          rw [hu'eq, applyEntry_count]
        refine Or.inl ⟨u, hu, hn2 ▸ hname, ?_, ?_⟩
        · rw [hfil]
          simp only [List.map_cons, List.sum_cons]
          omega
        · rw [hfil, List.length_cons]
          omega
      · -- u' is the untouched u, whose key differs from e
        have hte : ¬ e.project_name = t.project_name := by
          rw [← hname, hu'eq]
          exact fun h => hun h.symm
        have hfil : (e :: tl).filter (fun x => x.project_name = t.project_name)
            = tl.filter (fun x => x.project_name = t.project_name) := by
          rw [List.filter_cons_of_neg]
          simpa using hte
        exact Or.inl ⟨u, hu, hu'eq ▸ hname, by rw [hfil]; exact hu'eq ▸ htot,
          by rw [hfil]; exact hu'eq ▸ hcnt⟩
      · -- u' is the freshly appended summary keyed by e
        have hn2 : u'.project_name = e.project_name := by
          rw [hu'eq, applyEntry_project_name]
        have hte : e.project_name = t.project_name := by rw [← hn2, hname]
        have hfil : (e :: tl).filter (fun x => x.project_name = t.project_name)
            = e :: tl.filter (fun x => x.project_name = t.project_name) := by
          rw [List.filter_cons_of_pos]
          simpa using hte
        have hutot : u'.total_duration = e.duration.getD 0 := by
          rw [hu'eq, applyEntry_total]
          simp
        have hucnt : u'.entry_count = 1 := by
          rw [hu'eq, applyEntry_count]
        refine Or.inr ⟨fun u hu => hte ▸ hnone u hu, ?_, ?_⟩
        · rw [hfil]
          simp only [List.map_cons, List.sum_cons]
          omega
        · rw [hfil, List.length_cons]
          omega
    · -- no element of the stepped accumulator carries the key of t
      have hacc : ∀ u ∈ acc, ¬ u.project_name = t.project_name := by
        intro u hu hn
        obtain ⟨v, hv, hvn⟩ := exists_name_in_updateSummaries (e := e) hu
        exact hall v hv (hvn.trans hn)
      have hte : ¬ e.project_name = t.project_name := by
        intro hn
        obtain ⟨v, hv, hvn⟩ := entry_name_in_updateSummaries acc e
        exact hall v hv (hvn.trans hn)
      have hfil : (e :: tl).filter (fun x => x.project_name = t.project_name)
          = tl.filter (fun x => x.project_name = t.project_name) := by
        rw [List.filter_cons_of_neg]
        simpa using hte
      exact Or.inr ⟨hacc, by rw [hfil]; exact htot, by rw [hfil]; exact hcnt⟩

/-- A summary-fold step preserves distinctness of the keys. -/
theorem names_nodup_updateSummaries (acc : List ProjectSummary)
    (e : TimeEntry)
    (h : (acc.map ProjectSummary.project_name).Nodup) :
    ((updateSummaries acc e).map ProjectSummary.project_name).Nodup := by
  unfold updateSummaries
  split
  next =>
    rw [List.map_map,
      List.map_congr_left (g := ProjectSummary.project_name)
        (fun u _ => by
          by_cases hn : u.project_name = e.project_name
          · simp only [Function.comp_apply, if_pos hn, applyEntry_project_name]
          · simp only [Function.comp_apply, if_neg hn])]
    exact h
  next hany =>
    rw [List.map_append, List.nodup_append]
    refine ⟨h, by simp, ?_⟩
    intro a ha
    simp only [List.map_cons, List.map_nil, List.mem_singleton,
      applyEntry_project_name]
    intro heq
    rw [List.mem_map] at ha
    obtain ⟨u, hu, hua⟩ := ha
    exact hany (List.any_eq_true.2 ⟨u, hu, decide_eq_true (by rw [hua, heq])⟩)

/-- With distinct keys, one summary-fold step raises the count sum by
exactly one: a matching entry updates one element, a fresh key appends a
count-one summary. -/
theorem counts_sum_updateSummaries (acc : List ProjectSummary) (e : TimeEntry)
    (hnd : (acc.map ProjectSummary.project_name).Nodup) :
    ((updateSummaries acc e).map ProjectSummary.entry_count).sum
      = (acc.map ProjectSummary.entry_count).sum + 1 := by
  unfold updateSummaries
  split
  next hany =>
    induction acc with
    | nil => simp at hany
    | cons a tl ihacc =>
      simp only [List.map_cons, List.nodup_cons] at hnd
      by_cases ha : a.project_name = e.project_name
      · have htl : tl.map (fun s =>
            if s.project_name = e.project_name then s.applyEntry e else s)
            = tl := by
          rw [List.map_congr_left (g := id) (fun u hu => by
            have : ¬ u.project_name = e.project_name := by
              intro hn
              exact hnd.1 (by rw [ha, ← hn]; exact List.mem_map_of_mem _ hu)
            simp only [if_neg this, id_eq]), List.map_id]
        simp only [List.map_cons, if_pos ha, htl, List.sum_cons,
          applyEntry_count]
        omega
      · have htl_any : tl.any
            (fun s => s.project_name = e.project_name) = true := by
          simp only [List.any_cons, Bool.or_eq_true, decide_eq_true_eq] at hany
          rcases hany with h1 | h1
          · exact absurd h1 ha
          · exact h1
        simp only [List.map_cons, if_neg ha, List.sum_cons]
        rw [ihacc hnd.2 htl_any]
        omega
  next =>
    simp only [List.map_append, List.sum_append, List.map_cons, List.map_nil,
      List.sum_cons, List.sum_nil, applyEntry_count]
    omega

/-- The count sum over a fold of updateSummaries grows by the number of
folded entries. -/
theorem counts_sum_foldl (l : List TimeEntry) (acc : List ProjectSummary)
    (h : (acc.map ProjectSummary.project_name).Nodup) :
    ((l.foldl updateSummaries acc).map ProjectSummary.entry_count).sum
      = (acc.map ProjectSummary.entry_count).sum + l.length := by
  induction l generalizing acc with
  | nil => simp
  | cons e tl ih =>
    rw [List.foldl_cons, ih (updateSummaries acc e)
        (names_nodup_updateSummaries acc e h),
      counts_sum_updateSummaries acc e h, List.length_cons]
    omega

/-- Folding addition over the present durations equals the sum over all
entries with absent durations counted as zero. -/
theorem foldl_add_filterMap (l : List TimeEntry) (i : Int) :
    (l.filterMap TimeEntry.duration).foldl (· + ·) i
      = i + (l.map (fun e => e.duration.getD 0)).sum := by
  induction l generalizing i with
  | nil => simp
  | cons e tl ih =>
    cases hd : e.duration with
    | none => simp [List.filterMap_cons, hd, ih]
    | some d =>
      simp only [List.filterMap_cons, hd, List.foldl_cons, List.map_cons,
        List.sum_cons, Option.getD_some, ih]
      omega

/-! ### Claims -/

/-- C9: for every commit record, the estimated duration computed by
commit analysis (base time by commit type, complexity multiplier,
change-volume factor, file-type bonuses) never exceeds 4 hours
(14400 seconds). -/
theorem c9_estimate_capped_at_four_hours (c : GitCommit) (ct : CommitType)
    (score : ℚ) :
    (GitService.analyze_commit c).estimated_duration ≤ 14400
    ∧ GitService.estimate_commit_time c ct score ≤ 14400 := by
  constructor
  · show min _ _ ≤ _
    exact le_trans (min_le_right _ _) (by norm_num [GitService.durMinutes])
  · show min _ _ ≤ _
    exact le_trans (min_le_right _ _) (by norm_num [GitService.durMinutes])

/-- C2: whenever an active timer exists, startTimer fails with
TimerAlreadyRunning carrying the running timer's project name, and the
database (hence the active-timer slot and the time entries) is returned
unchanged. -/
theorem c2_start_timer_while_running (s : DbState) (r : TimerRow)
    (p : String) (task : Option String) (nid : Nat) (now : Int)
    (h : s.active_timer = some r) :
    TimeTrackingService.start_timer s p task nid now =
      (.error (.TimerAlreadyRunning r.project_name), s) := by
  unfold TimeTrackingService.start_timer SqliteRepository.get_active_timer
  rw [h]
  rfl

/-- Witness for C2 at a concrete running state. -/
theorem c2_start_timer_while_running_witness :
    TimeTrackingService.start_timer
        { projects := [Project.new "A" none 1 0]
          time_entries := []
          active_timer := some (timerToRow (Timer.new 1 "A" none 2 9)) }
        "A" none 3 4
      = (.error (.TimerAlreadyRunning "A"),
         { projects := [Project.new "A" none 1 0]
           time_entries := []
           active_timer := some (timerToRow (Timer.new 1 "A" none 2 9)) }) :=
  c2_start_timer_while_running _ _ "A" none 3 4 rfl

/-- C4: deleting a project with zero referencing time entries succeeds
and removes exactly that project row (entries untouched); deleting one
with referencing entries fails with ProjectHasTimeEntries and returns
the database unchanged. -/
theorem c4_delete_project_guard (s : DbState) (id : Nat) :
    ((s.time_entries.filter (fun e => e.project_id = id)).length = 0 →
      SqliteRepository.delete_project s id =
        (.ok (), { s with projects := s.projects.filter (fun p => ¬ p.id = id) }))
    ∧ (0 < (s.time_entries.filter (fun e => e.project_id = id)).length →
      SqliteRepository.delete_project s id =
        (.error (.ProjectHasTimeEntries
          (((SqliteRepository.get_project_by_id s id).map Project.name).getD
            (toString id))), s)) := by
  constructor <;> intro h <;> unfold SqliteRepository.delete_project
  · rw [if_neg (by omega)]
  · rw [if_pos (by omega)]

/-- Witness for C4: both branches at concrete databases. -/
theorem c4_delete_project_guard_witness :
    (SqliteRepository.delete_project
        { projects := [Project.new "A" none 1 0], time_entries := [],
          active_timer := none } 1
      = (.ok (), { projects := [], time_entries := [], active_timer := none }))
    ∧ (SqliteRepository.delete_project
        { projects := [Project.new "A" none 1 0],
          time_entries := [TimeEntry.new 1 "A" none 0 2 0],
          active_timer := none } 1
      = (.error (.ProjectHasTimeEntries "A"),
         { projects := [Project.new "A" none 1 0],
           time_entries := [TimeEntry.new 1 "A" none 0 2 0],
           active_timer := none })) :=
  ⟨(c4_delete_project_guard _ 1).1 (by decide),
   (c4_delete_project_guard _ 1).2 (by decide)⟩

/-- C10: the active-timer singleton round-trips exactly through
saveActiveTimer and getActiveTimer, and the stored row holds NULL tags
exactly when the tag list is empty. -/
theorem c10_active_timer_roundtrip (s : DbState) (t : Timer) :
    SqliteRepository.get_active_timer (SqliteRepository.save_active_timer s t)
        = some t
    ∧ (SqliteRepository.save_active_timer s t).active_timer
        = some { id := t.id, project_id := t.project_id
                 project_name := t.project_name
                 task_description := t.task_description
                 start_time := t.start_time
                 tags := if t.tags.isEmpty then none else some t.tags } := by
  constructor
  · show some (timer_from_row (timerToRow t)) = some t
    rw [timer_from_row_timerToRow]
  · rfl

/-- C3 (amended): creating a project whose name is already in the store
fails with ProjectAlreadyExists, leaves the database unchanged, and the
store still holds exactly one row for that name. -/
theorem c3_create_project_duplicate (s : DbState) (name : String)
    (d : Option String) (nid : Nat) (now : Int) (q : Project)
    (h1 : SqliteRepository.get_project_by_name s name = some q)
    (h2 : (s.projects.filter (fun p => p.name = name)).length = 1) :
    ProjectService.create_project s name d nid now =
      (.error (.ProjectAlreadyExists name), s)
    ∧ (((ProjectService.create_project s name d nid now).2).projects.filter
        (fun p => p.name = name)).length = 1 := by
  have hres : ProjectService.create_project s name d nid now =
      (.error (.ProjectAlreadyExists name), s) := by
    unfold ProjectService.create_project
    rw [h1]
    rfl
  exact ⟨hres, by rw [hres]; exact h2⟩

/-- Witness for C3 at a concrete one-project store. -/
theorem c3_create_project_duplicate_witness :
    ProjectService.create_project
        { projects := [Project.new "A" none 1 0], time_entries := [],
          active_timer := none } "A" none 2 5
      = (.error (.ProjectAlreadyExists "A"),
         { projects := [Project.new "A" none 1 0], time_entries := [],
           active_timer := none }) :=
  (c3_create_project_duplicate
    { projects := [Project.new "A" none 1 0], time_entries := [],
      active_timer := none } "A" none 2 5 (Project.new "A" none 1 0)
    rfl (by decide)).1

/-- C3 counterexample: the empty name is not rejected; on an empty store
createProject with the empty name succeeds and inserts a project whose
name is empty. -/
theorem c3_counterexample_empty_name :
    ProjectService.create_project
        { projects := [], time_entries := [], active_timer := none } "" none 3 5
      = (.ok (Project.new "" none 3 5),
         { projects := [Project.new "" none 3 5], time_entries := [],
           active_timer := none }) := rfl

/-- C7: the date-range query returns exactly the stored entries whose
start time lies within the inclusive window, ordered ascending by start
time. -/
theorem c7_date_range_query (s : DbState) (a b : Int) :
    (SqliteRepository.list_time_entries_by_date_range s a b).Perm
        (s.time_entries.filter (fun e => a ≤ e.start_time ∧ e.start_time ≤ b))
    ∧ List.Sorted SqliteRepository.entryLE
        (SqliteRepository.list_time_entries_by_date_range s a b)
    ∧ ∀ e, e ∈ SqliteRepository.list_time_entries_by_date_range s a b ↔
        (e ∈ s.time_entries ∧ a ≤ e.start_time ∧ e.start_time ≤ b) := by
  refine ⟨List.perm_insertionSort _ _, List.sorted_insertionSort _ _, ?_⟩
  intro e
  unfold SqliteRepository.list_time_entries_by_date_range
  rw [List.mem_insertionSort, List.mem_filter]
  simp

/-- C5: every reachable time entry has duration exactly when it has an
end time, and then duration = end_time - start_time; stopping with an
end time not strictly after the start fails with InvalidDuration (the
entry value is untouched, the operation returning only the error). -/
theorem c5_entry_duration_invariant :
    (∀ e, ReachableEntry e → entryDurationInv e)
    ∧ (∀ (e : TimeEntry) (t now : Int), t ≤ e.start_time →
        e.stop t now =
          .error (.InvalidDuration "End time must be after start time")) := by
  constructor
  · intro e h
    induction h with
    | new pid pname task start id now =>
      simp [TimeEntry.new, entryDurationInv]
    | add_tag e tag now _ ih =>
      unfold TimeEntry.add_tag
      split
      · exact ih
      · exact ih
    | remove_tag e tag now _ ih =>
      exact ih
    | stop e t now e' _ heq _ =>
      unfold TimeEntry.stop at heq
      split at heq
      · exact absurd heq (by simp)
      · cases heq
        simp [entryDurationInv]
  · intro e t now h
    unfold TimeEntry.stop
    rw [if_pos h]

/-- Witness for C5: the invariant at a freshly created entry, and a
concrete rejected stop. -/
theorem c5_entry_duration_invariant_witness :
    entryDurationInv (TimeEntry.new 1 "p" none 0 2 0)
    ∧ (TimeEntry.new 1 "p" none 4 2 0).stop 3 9 =
        .error (.InvalidDuration "End time must be after start time") :=
  ⟨c5_entry_duration_invariant.1 _ (ReachableEntry.new 1 "p" none 0 2 0),
   c5_entry_duration_invariant.2 (TimeEntry.new 1 "p" none 4 2 0) 3 9
     (by decide)⟩

/-- C8: tag addition is deduplicating and order-preserving, on timers
and on time entries; a second add of the same tag is a no-op, a fresh
tag is appended at the end, two adds leave exactly one occurrence, and
an entry finalized by stopTimer after the active timer received the
same tag twice carries exactly one occurrence of it. -/
theorem c8_tag_dedup :
    (∀ (t : Timer) (tag : String),
        (t.add_tag tag).add_tag tag = t.add_tag tag)
    ∧ (∀ (t : Timer) (tag : String), tag ∉ t.tags →
        (t.add_tag tag).tags = t.tags ++ [tag])
    ∧ (∀ (t : Timer) (tag : String), t.tags.count tag ≤ 1 →
        ((t.add_tag tag).add_tag tag).tags.count tag = 1)
    ∧ (∀ (e : TimeEntry) (tag : String) (n1 n2 : Int),
        (e.add_tag tag n1).add_tag tag n2 = e.add_tag tag n1)
    ∧ (∀ (s : DbState) (r : TimerRow) (tag : String) (nid : Nat) (t2 : Int)
        (entry : TimeEntry) (s3 : DbState),
        s.active_timer = some r →
        TimeTrackingService.stop_timer
            ((TimeTrackingService.add_tag_to_active_timer
              ((TimeTrackingService.add_tag_to_active_timer s tag).2) tag).2)
            nid t2
          = (.ok entry, s3) →
        entry.tags.count tag = 1) := by
  refine ⟨Timer.add_tag_idem, ?_, ?_, ?_, ?_⟩
  · intro t tag h
    unfold Timer.add_tag
    rw [if_neg h]
  · intro t tag h
    rw [Timer.add_tag_idem]
    by_cases hmem : tag ∈ t.tags
    · have h1 : 0 < t.tags.count tag := List.count_pos_iff.2 hmem
      have : t.add_tag tag = t := by unfold Timer.add_tag; rw [if_pos hmem]
      rw [this]
      omega
    · have : (t.add_tag tag).tags = t.tags ++ [tag] := by
        unfold Timer.add_tag; rw [if_neg hmem]
      rw [this]
      simp [List.count_append, List.count_eq_zero.2 hmem]
  · intro e tag n1 n2
    by_cases h : tag ∈ e.tags
    · have h1 : e.add_tag tag n1 = e := by
        unfold TimeEntry.add_tag
        rw [if_pos h]
      rw [h1]
      unfold TimeEntry.add_tag
      rw [if_pos h]
    · have h1 : e.add_tag tag n1 =
          { e with tags := e.tags ++ [tag], updated_at := n1 } := by
        unfold TimeEntry.add_tag
        rw [if_neg h]
      rw [h1]
      unfold TimeEntry.add_tag
      rw [if_pos (by simp)]
  · intro s r tag nid t2 entry s3 hact heq
    set tm := timer_from_row r with htm
    have h1 : TimeTrackingService.add_tag_to_active_timer s tag =
        (.ok (), SqliteRepository.save_active_timer s (tm.add_tag tag)) := by
      unfold TimeTrackingService.add_tag_to_active_timer
        SqliteRepository.get_active_timer
      rw [hact]
      rfl
    rw [h1] at heq
    have h2 : TimeTrackingService.add_tag_to_active_timer
        (SqliteRepository.save_active_timer s (tm.add_tag tag)) tag =
        (.ok (), SqliteRepository.save_active_timer
          (SqliteRepository.save_active_timer s (tm.add_tag tag))
          (tm.add_tag tag)) := by
      unfold TimeTrackingService.add_tag_to_active_timer
        SqliteRepository.get_active_timer SqliteRepository.save_active_timer
      simp only [Option.map_some']
      rw [timer_from_row_timerToRow, Timer.add_tag_idem]
    rw [h2] at heq
    unfold TimeTrackingService.stop_timer SqliteRepository.get_active_timer
      SqliteRepository.save_active_timer at heq
    simp only [Option.map_some', timer_from_row_timerToRow] at heq
    set entry1 := (tm.add_tag tag).tags.foldl
      (fun e tg => e.add_tag tg t2)
      (TimeEntry.new (tm.add_tag tag).project_id (tm.add_tag tag).project_name
        (tm.add_tag tag).task_description (tm.add_tag tag).start_time nid t2)
      with hentry1
    match hstop : entry1.stop t2 t2 with
    | .error err =>
      rw [hstop] at heq
      exact absurd heq (by simp)
    | .ok entry2 =>
      rw [hstop] at heq
      have hent : entry2 = entry := by
        simpa using congrArg (fun x => x.1) heq
      subst hent
      rw [TimeEntry.stop_tags hstop, hentry1, count_foldl_add_tag]
      simp [TimeEntry.new, Timer.mem_add_tag_self]

/-- Witness for C8: the hypothesis-bearing parts at concrete values,
including the full start-tag-tag-stop pipeline. -/
theorem c8_tag_dedup_witness :
    ((Timer.new 1 "p" none 0 9).add_tag "dev").tags = ["dev"]
    ∧ (((Timer.mk 1 2 "p" none 0 ["a"]).add_tag "dev").add_tag "dev").tags.count
        "dev" = 1
    ∧ (TimeTrackingService.stop_timer
        ((TimeTrackingService.add_tag_to_active_timer
          ((TimeTrackingService.add_tag_to_active_timer
            { projects := [], time_entries := [],
              active_timer := some (Timer.new 2 "p" none 0 9 |> timerToRow) }
            "dev").2) "dev").2) 5 10).1
      = .ok { id := 5, project_id := 2, project_name := "p",
              task_description := none, start_time := 0, end_time := some 10,
              duration := some 10, tags := ["dev"], created_at := 10,
              updated_at := 10 }
    ∧ ({ id := 5, project_id := 2, project_name := "p",
         task_description := none, start_time := 0, end_time := some 10,
         duration := some 10, tags := ["dev"], created_at := 10,
         updated_at := 10 } : TimeEntry).tags.count "dev" = 1 := by
  refine ⟨c8_tag_dedup.2.1 (Timer.new 1 "p" none 0 9) "dev" (by decide),
          c8_tag_dedup.2.2.1 (Timer.mk 1 2 "p" none 0 ["a"]) "dev" (by decide),
          rfl,
          ?_⟩
  exact c8_tag_dedup.2.2.2.2
    { projects := [], time_entries := [],
      active_timer := some (Timer.new 2 "p" none 0 9 |> timerToRow) }
    (Timer.new 2 "p" none 0 9 |> timerToRow) "dev" 5 10 _ _ rfl rfl

/-- C1: on an Idle machine holding project p, startTimer then stopTimer
succeeds; the finalized entry carries the project name, the timer task
description and tags, start time t1, end time t2 and duration t2 - t1,
and the machine is back in Idle (getActiveTimer returns absence). -/
theorem c1_start_stop (s : DbState) (p : String) (task : Option String)
    (proj : Project) (nid eid : Nat) (t1 t2 : Int)
    (hidle : s.active_timer = none)
    (hproj : SqliteRepository.get_project_by_name s p = some proj)
    (ht : t1 < t2) :
    TimeTrackingService.start_timer s p task nid t1 =
      (.ok (Timer.new proj.id proj.name task t1 nid),
       SqliteRepository.save_active_timer s (Timer.new proj.id proj.name task t1 nid))
    ∧ TimeTrackingService.stop_timer
        (SqliteRepository.save_active_timer s
          (Timer.new proj.id proj.name task t1 nid)) eid t2 =
      (.ok { id := eid, project_id := proj.id, project_name := p,
             task_description := task, start_time := t1, end_time := some t2,
             duration := some (t2 - t1), tags := [], created_at := t2,
             updated_at := t2 },
       { s with
         time_entries := s.time_entries ++
           [{ id := eid, project_id := proj.id, project_name := p,
              task_description := task, start_time := t1, end_time := some t2,
              duration := some (t2 - t1), tags := [], created_at := t2,
              updated_at := t2 }]
         active_timer := none })
    ∧ SqliteRepository.get_active_timer
        (TimeTrackingService.stop_timer
          (SqliteRepository.save_active_timer s
            (Timer.new proj.id proj.name task t1 nid)) eid t2).2 = none := by
  have hname : proj.name = p := get_project_by_name_name hproj
  subst hname
  have hstart : TimeTrackingService.start_timer s proj.name task nid t1 =
      (.ok (Timer.new proj.id proj.name task t1 nid),
       SqliteRepository.save_active_timer s
         (Timer.new proj.id proj.name task t1 nid)) := by
    unfold TimeTrackingService.start_timer SqliteRepository.get_active_timer
    rw [hidle, hproj]
    rfl
  have hstop : TimeTrackingService.stop_timer
      (SqliteRepository.save_active_timer s
        (Timer.new proj.id proj.name task t1 nid)) eid t2 =
      (.ok { id := eid, project_id := proj.id, project_name := proj.name,
             task_description := task, start_time := t1, end_time := some t2,
             duration := some (t2 - t1), tags := [], created_at := t2,
             updated_at := t2 },
       { s with
         time_entries := s.time_entries ++
           [{ id := eid, project_id := proj.id, project_name := proj.name,
              task_description := task, start_time := t1, end_time := some t2,
              duration := some (t2 - t1), tags := [], created_at := t2,
              updated_at := t2 }]
         active_timer := none }) := by
    unfold TimeTrackingService.stop_timer SqliteRepository.get_active_timer
      SqliteRepository.save_active_timer
    simp only [Option.map_some', timer_from_row_timerToRow]
    have hkey : (((Timer.new proj.id proj.name task t1 nid).tags).foldl
        (fun e tag => e.add_tag tag t2)
        (TimeEntry.new (Timer.new proj.id proj.name task t1 nid).project_id
          (Timer.new proj.id proj.name task t1 nid).project_name
          (Timer.new proj.id proj.name task t1 nid).task_description
          (Timer.new proj.id proj.name task t1 nid).start_time eid t2)).stop
          t2 t2
      = .ok { id := eid, project_id := proj.id, project_name := proj.name,
              task_description := task, start_time := t1, end_time := some t2,
              duration := some (t2 - t1), tags := [], created_at := t2,
              updated_at := t2 } := by
      show (TimeEntry.new proj.id proj.name task t1 eid t2).stop t2 t2 = _
      unfold TimeEntry.stop
      rw [if_neg (show ¬ t2 ≤
        (TimeEntry.new proj.id proj.name task t1 eid t2).start_time from
        not_le.2 ht)]
      rfl
    rw [hkey]
    rfl
  exact ⟨hstart, hstop, by rw [hstop]; rfl⟩

/-- Witness for C1: a concrete Idle store holding project Acme, started
at time 3 and stopped at time 8. -/
theorem c1_start_stop_witness :
    TimeTrackingService.start_timer
        { projects := [Project.new "Acme" none 1 0], time_entries := [],
          active_timer := none } "Acme" (some "design") 4 3 =
      (.ok (Timer.new 1 "Acme" (some "design") 3 4),
       SqliteRepository.save_active_timer
         { projects := [Project.new "Acme" none 1 0], time_entries := [],
           active_timer := none }
         (Timer.new 1 "Acme" (some "design") 3 4))
    ∧ TimeTrackingService.stop_timer
        (SqliteRepository.save_active_timer
          { projects := [Project.new "Acme" none 1 0], time_entries := [],
            active_timer := none }
          (Timer.new 1 "Acme" (some "design") 3 4)) 5 8 =
      (.ok { id := 5, project_id := 1, project_name := "Acme",
             task_description := some "design", start_time := 3,
             end_time := some 8, duration := some 5, tags := [],
             created_at := 8, updated_at := 8 },
       { projects := [Project.new "Acme" none 1 0],
         time_entries :=
           [{ id := 5, project_id := 1, project_name := "Acme",
              task_description := some "design", start_time := 3,
              end_time := some 8, duration := some 5, tags := [],
              created_at := 8, updated_at := 8 }],
         active_timer := none })
    ∧ SqliteRepository.get_active_timer
        (TimeTrackingService.stop_timer
          (SqliteRepository.save_active_timer
            { projects := [Project.new "Acme" none 1 0], time_entries := [],
              active_timer := none }
            (Timer.new 1 "Acme" (some "design") 3 4)) 5 8).2 = none :=
  c1_start_stop
    { projects := [Project.new "Acme" none 1 0], time_entries := [],
      active_timer := none }
    "Acme" (some "design") (Project.new "Acme" none 1 0) 4 5 3 8
    rfl rfl (by decide)

/-- C6: for every entry list and range, the report total duration is
the sum of the entry durations with absent durations contributing zero;
each per-project summary carries the duration sum and entry count of
exactly that project, and the summary counts sum to the total entry
count. -/
theorem c6_time_report_fold (entries : List TimeEntry) (a b : Int) :
    (TimeReport.new entries a b).total_duration
        = (entries.map (fun e => e.duration.getD 0)).sum
    ∧ (∀ t ∈ (TimeReport.new entries a b).project_summaries,
        t.total_duration = ((entries.filter
            (fun e => e.project_name = t.project_name)).map
            (fun e => e.duration.getD 0)).sum
        ∧ t.entry_count = (entries.filter
            (fun e => e.project_name = t.project_name)).length)
    ∧ ((TimeReport.new entries a b).project_summaries.map
        ProjectSummary.entry_count).sum = entries.length := by
  refine ⟨?_, ?_, ?_⟩
  · show (entries.filterMap TimeEntry.duration).foldl (· + ·) 0 = _
    rw [foldl_add_filterMap]
    omega
  · intro t ht
    rcases foldl_updateSummaries_spec entries [] t ht with
      ⟨u, hu, _⟩ | ⟨_, htot, hcnt⟩
    · exact absurd hu (List.not_mem_nil u)
    · exact ⟨htot, hcnt⟩
  · show ((entries.foldl updateSummaries []).map
      ProjectSummary.entry_count).sum = _
    rw [counts_sum_foldl entries [] (by simp)]
    simp

/-- Witness for C6: a three-entry report with two projects, one entry
lacking a duration. -/
theorem c6_time_report_fold_witness :
    (TimeReport.new
        [⟨0, 1, "A", none, 0, some 10, some 10, [], 0, 0⟩,
         ⟨1, 1, "A", none, 2, none, none, [], 0, 0⟩,
         ⟨2, 2, "B", none, 3, some 7, some 4, [], 0, 0⟩] 0 99).total_duration
      = 14
    ∧ ((⟨"A", 10, 2⟩ : ProjectSummary).total_duration
        = ((([⟨0, 1, "A", none, 0, some 10, some 10, [], 0, 0⟩,
             ⟨1, 1, "A", none, 2, none, none, [], 0, 0⟩,
             ⟨2, 2, "B", none, 3, some 7, some 4, [], 0, 0⟩]
            : List TimeEntry).filter
            (fun e => e.project_name = "A")).map
            (fun e => e.duration.getD 0)).sum
      ∧ (⟨"A", 10, 2⟩ : ProjectSummary).entry_count
        = (([⟨0, 1, "A", none, 0, some 10, some 10, [], 0, 0⟩,
             ⟨1, 1, "A", none, 2, none, none, [], 0, 0⟩,
             ⟨2, 2, "B", none, 3, some 7, some 4, [], 0, 0⟩]
            : List TimeEntry).filter
            (fun e => e.project_name = "A")).length)
    ∧ ((TimeReport.new
        [⟨0, 1, "A", none, 0, some 10, some 10, [], 0, 0⟩,
         ⟨1, 1, "A", none, 2, none, none, [], 0, 0⟩,
         ⟨2, 2, "B", none, 3, some 7, some 4, [], 0, 0⟩] 0 99).project_summaries.map
        ProjectSummary.entry_count).sum = 3 := by
  have h := c6_time_report_fold
    [⟨0, 1, "A", none, 0, some 10, some 10, [], 0, 0⟩,
     ⟨1, 1, "A", none, 2, none, none, [], 0, 0⟩,
     ⟨2, 2, "B", none, 3, some 7, some 4, [], 0, 0⟩] 0 99
  refine ⟨by rw [h.1]; decide, ?_, by rw [h.2.2]; rfl⟩
  exact h.2.1 ⟨"A", 10, 2⟩ (by decide)

end TimeSpan
